import Mathlib

/-!
Verification development for the xoscar actor-communication core.

The definitions below are shallow embeddings of the Python sources:
  * `src/python/xoscar/profiling.py`   (call statistics, profiling registry)
  * `src/python/xoscar/backends/context.py` (MarsActorContext)
  * the `Percentile` metrics collector (source not in the snapshot; its
    behaviour is modelled from the design document, see the marked
    definitions below).

Python floats that only ever carry call durations are modelled as `Int`;
bytes values (actor uids) are modelled as `String`.
-/

/-! ## Python values appearing in slow-call tuples

A slow-call sample is the tuple `(duration, uid, address, content)` where
`content` is the send-message payload `(method_name, batch, args, kwargs)`.
`args` is a Python tuple and `kwargs` a dict; comparing dicts (or values of
different types, or `None` with `None`) with `<` raises `TypeError`, which is
what the `except TypeError: pass` in `_CallStats.collect` absorbs. -/

inductive PyAtom where
  | pint : Int → PyAtom
  | pstr : String → PyAtom
  | pnone : PyAtom
  | pdictA : List (String × Int) → PyAtom
deriving DecidableEq, Repr

/-- Python `==` on atoms: values of different types compare unequal, dicts
compare by contents (dicts here are kept in a canonical key order). -/
def atomEq : PyAtom → PyAtom → Bool
  | PyAtom.pint a, PyAtom.pint b => decide (a = b)
  | PyAtom.pstr a, PyAtom.pstr b => decide (a = b)
  | PyAtom.pnone, PyAtom.pnone => true
  | PyAtom.pdictA a, PyAtom.pdictA b => decide (a = b)
  | _, _ => false

/-- Python `<` on atoms: numbers and strings are orderable; dicts, `None`
and cross-type comparisons raise `TypeError` (modelled as `Except.error`). -/
def atomLt : PyAtom → PyAtom → Except Unit Bool
  | PyAtom.pint a, PyAtom.pint b => Except.ok (decide (a < b))
  | PyAtom.pstr a, PyAtom.pstr b => Except.ok (decide (a < b))
  | _, _ => Except.error ()

/-- Python `==` on tuples of atoms (elementwise, plus equal length). -/
def argsEq : List PyAtom → List PyAtom → Bool
  | [], [] => true
  | a :: as1, b :: bs => atomEq a b && argsEq as1 bs
  | _, _ => false

/-- Python `<` on tuples of atoms: lexicographic; the first non-equal pair
decides via `<` (which may raise); a strict prefix is smaller. -/
def argsLt : List PyAtom → List PyAtom → Except Unit Bool
  | [], [] => Except.ok false
  | [], _ :: _ => Except.ok true
  | _ :: _, [] => Except.ok false
  | a :: as1, b :: bs => if atomEq a b then argsLt as1 bs else atomLt a b

/-- The content payload of a Send/Tell message: `(method_name, batch, args, kwargs)`. -/
structure Content where
  method : String
  batch : PyAtom
  args : List PyAtom
  kwargs : PyAtom
deriving DecidableEq, Repr

def contentEq (x y : Content) : Bool :=
  decide (x.method = y.method) && atomEq x.batch y.batch &&
    argsEq x.args y.args && atomEq x.kwargs y.kwargs

/-- Python `<` on two content 4-tuples (lexicographic with `==` to skip
equal components; equal tuples compare `False`). -/
def contentLt (x y : Content) : Except Unit Bool :=
  if contentEq x y then Except.ok false
  else if x.method = y.method then
    (if atomEq x.batch y.batch then
      (if argsEq x.args y.args then atomLt x.kwargs y.kwargs
       else argsLt x.args y.args)
     else atomLt x.batch y.batch)
  else Except.ok (decide (x.method < y.method))

/-- A slow-call sample `(duration, uid, address, content)` as pushed on the
`_slow_calls` heap by `_CallStats.collect`. -/
structure SlowKey where
  duration : Int
  uid : String
  address : String
  content : Content
deriving DecidableEq, Repr

def dfltKey : SlowKey := ⟨0, "", "", ⟨"", PyAtom.pnone, [], PyAtom.pnone⟩⟩

/-- Python `<` on two slow-call 4-tuples. Duration decides first, then uid,
then address; equal prefixes fall through to the content comparison, which
can raise `TypeError`. -/
def keyLt (a b : SlowKey) : Except Unit Bool :=
  if a.duration = b.duration then
    (if a.uid = b.uid then
      (if a.address = b.address then contentLt a.content b.content
       else Except.ok (decide (a.address < b.address)))
     else Except.ok (decide (a.uid < b.uid)))
  else Except.ok (decide (a.duration < b.duration))

deriving instance DecidableEq for Except

/-! ## CPython `heapq` (as the `_heapq` C accelerator executes it)

`heappush` appends the item and sifts it towards the root; `heapreplace`
overwrites the root and sifts it down.  Each sift step swaps two list cells,
so when a comparison raises the list keeps all swaps performed so far (in
particular a failed `heappush` leaves the new item in the list).  The `Bool`
result is `true` when no comparison raised; the returned list is the state
of the Python list at that point.  The `fuel` argument only bounds the
recursion; call sites pass enough fuel for it never to run out. -/

def siftdownAux (fuel : Nat) (heap : List SlowKey) (startpos pos : Nat) :
    List SlowKey × Bool :=
  match fuel with
  | 0 => (heap, false)
  | Nat.succ fuel =>
    if startpos < pos then
      let parentpos := (pos - 1) / 2
      let newitem := heap.getD pos dfltKey
      let parent := heap.getD parentpos dfltKey
      match keyLt newitem parent with
      | Except.error _ => (heap, false)
      | Except.ok false => (heap, true)
      | Except.ok true =>
          siftdownAux fuel ((heap.set parentpos newitem).set pos parent) startpos parentpos
    else (heap, true)

def siftupAux (fuel : Nat) (heap : List SlowKey) (startpos pos : Nat) :
    List SlowKey × Bool :=
  match fuel with
  | 0 => (heap, false)
  | Nat.succ fuel =>
    if pos < heap.length / 2 then
      let childpos := 2 * pos + 1
      let chosen :=
        if childpos + 1 < heap.length then
          match keyLt (heap.getD childpos dfltKey) (heap.getD (childpos + 1) dfltKey) with
          | Except.error e => Except.error e
          | Except.ok true => Except.ok childpos
          | Except.ok false => Except.ok (childpos + 1)
        else Except.ok childpos
      match chosen with
      | Except.error _ => (heap, false)
      | Except.ok cp =>
          siftupAux fuel ((heap.set cp (heap.getD pos dfltKey)).set pos (heap.getD cp dfltKey))
            startpos cp
    else siftdownAux (heap.length + 1) heap startpos pos

/-- `heapq.heappush(heap, item)`: append, then sift down towards the root. -/
def heappush (heap : List SlowKey) (item : SlowKey) : List SlowKey × Bool :=
  siftdownAux (heap.length + 2) (heap ++ [item]) 0 ((heap ++ [item]).length - 1)

/-- `heapq.heapreplace(heap, item)`: overwrite the root with `item`, then
sift up (the popped minimum is discarded by the caller). -/
def heapreplace (heap : List SlowKey) (item : SlowKey) : List SlowKey × Bool :=
  siftupAux (heap.length + 2) (heap.set 0 item) 0 0

/-! ## `_CallStats` -/

/-- `Counter[key] += 1`: an existing key keeps its position, a new key is
appended (Python dict insertion order). -/
def counterInc : List ((String × String) × Nat) → (String × String) →
    List ((String × String) × Nat)
  | [], k => [(k, 1)]
  | (k', n) :: t, k =>
      if k' = k then (k', n + 1) :: t else (k', n) :: counterInc t k

inductive MsgKind where
  | send | tell | other
deriving DecidableEq, Repr

/-- A Send/Tell protocol message as seen by the profiling code:
`message.actor_ref.uid`, `message.actor_ref.address`, `message.content`. -/
structure Msg where
  kind : MsgKind
  uid : String
  address : String
  content : Content
deriving DecidableEq, Repr

/-- State of one `_CallStats` instance (threshold resolved from options). -/
structure CallStats where
  slow_calls_duration_threshold : Int
  call_counter : List ((String × String) × Nat)
  slow_calls : List SlowKey
deriving DecidableEq, Repr

def mkSlowKey (m : Msg) (duration : Int) : SlowKey :=
  ⟨duration, m.uid, m.address, m.content⟩

/-- `_CallStats.collect(message, duration)`: count the call; below the
slow-call threshold stop; otherwise push the sample (full heap: replace the
root), absorbing a `TypeError` from an unorderable comparison while keeping
the list exactly as the aborted heap operation left it. -/
def CallStats.collect (cs : CallStats) (m : Msg) (duration : Int) : CallStats :=
  let cc := counterInc cs.call_counter (m.uid, m.content.method)
  if duration < cs.slow_calls_duration_threshold then
    { cs with call_counter := cc }
  else
    let pr :=
      if cs.slow_calls.length < 10 then heappush cs.slow_calls (mkSlowKey m duration)
      else heapreplace cs.slow_calls (mkSlowKey m duration)
    { cs with call_counter := cc, slow_calls := pr.fst }

/-! ## Heap lemmas: the sift operations only permute the list -/

theorem ite_one_eq_symm {α : Type} [DecidableEq α] (x y : α) :
    (if x = y then (1 : Nat) else 0) = (if y = x then 1 else 0) := by
  by_cases h : x = y
  · simp [h]
  · have h2 : ¬ y = x := fun hh => h hh.symm
    simp [h, h2]

theorem count_set_add {α : Type} [DecidableEq α] (l : List α) :
    ∀ (i : Nat), i < l.length → ∀ (v d y : α),
    (l.set i v).count y + (if l.getD i d = y then 1 else 0)
      = l.count y + (if v = y then 1 else 0) := by
  induction l with
  | nil => intro i hi; simp at hi
  | cons a t ih =>
    intro i hi v d y
    cases i with
    | zero =>
      have hset : (a :: t).set 0 v = v :: t := rfl
      have hget : (a :: t).getD 0 d = a := rfl
      rw [hset, hget, List.count_cons, List.count_cons]
      simp only [beq_iff_eq]
      have e1 := ite_one_eq_symm y v
      have e2 := ite_one_eq_symm a y
      omega
    | succ i =>
      have hset : (a :: t).set (i + 1) v = a :: t.set i v := rfl
      have hget : (a :: t).getD (i + 1) d = t.getD i d := rfl
      rw [hset, hget, List.count_cons, List.count_cons]
      simp only [beq_iff_eq]
      have hi' : i < t.length := by simpa using hi
      have ihh := ih i hi' v d y
      omega

theorem set_set_swap_perm {α : Type} [DecidableEq α] (l : List α) (i j : Nat) (d : α)
    (hi : i < l.length) (hj : j < l.length) (hne : i ≠ j) :
    ((l.set i (l.getD j d)).set j (l.getD i d)).Perm l := by
  rw [List.perm_iff_count]
  intro y
  have h1 := count_set_add (l.set i (l.getD j d)) j (by simpa using hj) (l.getD i d) d y
  have h2 := count_set_add l i hi (l.getD j d) d y
  have h3 : (l.set i (l.getD j d)).getD j d = l.getD j d := by
    simp [List.getD_eq_getElem?_getD, List.getElem?_set_ne hne]
  rw [h3] at h1
  by_cases hvj : l.getD j d = y <;> by_cases hvi : l.getD i d = y <;>
    simp [hvj, hvi] at h1 h2 ⊢ <;> omega

theorem siftdownAux_length (fuel : Nat) : ∀ heap startpos pos,
    (siftdownAux fuel heap startpos pos).fst.length = heap.length := by
  induction fuel with
  | zero => intro heap s p; rfl
  | succ fuel ih =>
    intro heap s p
    simp only [siftdownAux]
    by_cases hsp : s < p
    · simp only [if_pos hsp]
      rcases hkl : keyLt (heap.getD p dfltKey) (heap.getD ((p - 1) / 2) dfltKey) with e | b
      · rfl
      · cases b
        · rfl
        · rw [ih]
          simp
    · simp [hsp]

theorem siftdownAux_perm (fuel : Nat) : ∀ heap startpos pos, pos < heap.length →
    (siftdownAux fuel heap startpos pos).fst.Perm heap := by
  induction fuel with
  | zero => intro heap s p _; exact List.Perm.refl _
  | succ fuel ih =>
    intro heap s p hp
    simp only [siftdownAux]
    by_cases hsp : s < p
    · simp only [if_pos hsp]
      rcases hkl : keyLt (heap.getD p dfltKey) (heap.getD ((p - 1) / 2) dfltKey) with e | b
      · exact List.Perm.refl _
      · cases b
        · exact List.Perm.refl _
        · have hpp : (p - 1) / 2 < p := by omega
          have hpl : (p - 1) / 2 < heap.length := hpp.trans hp
          have hrec := ih ((heap.set ((p - 1) / 2) (heap.getD p dfltKey)).set p
              (heap.getD ((p - 1) / 2) dfltKey)) s ((p - 1) / 2) (by simpa using hpl)
          exact hrec.trans (set_set_swap_perm heap ((p - 1) / 2) p dfltKey hpl hp (Nat.ne_of_lt hpp))
    · simp [hsp]

theorem siftupAux_length (fuel : Nat) : ∀ heap startpos pos,
    (siftupAux fuel heap startpos pos).fst.length = heap.length := by
  induction fuel with
  | zero => intro heap s p; rfl
  | succ fuel ih =>
    intro heap s p
    simp only [siftupAux]
    by_cases hlim : p < heap.length / 2
    · simp only [if_pos hlim]
      by_cases hr : 2 * p + 1 + 1 < heap.length
      · simp only [if_pos hr]
        rcases hkl : keyLt (heap.getD (2 * p + 1) dfltKey) (heap.getD (2 * p + 1 + 1) dfltKey)
            with e | b
        · rfl
        · cases b <;> (rw [ih]; simp)
      · simp only [if_neg hr]
        rw [ih]; simp
    · simp only [if_neg hlim]
      exact siftdownAux_length _ _ _ _

theorem siftupAux_perm (fuel : Nat) : ∀ heap startpos pos, pos < heap.length →
    (siftupAux fuel heap startpos pos).fst.Perm heap := by
  induction fuel with
  | zero => intro heap s p _; exact List.Perm.refl _
  | succ fuel ih =>
    intro heap s p hp
    simp only [siftupAux]
    by_cases hlim : p < heap.length / 2
    · simp only [if_pos hlim]
      have hc1 : 2 * p + 1 < heap.length := by omega
      by_cases hr : 2 * p + 1 + 1 < heap.length
      · simp only [if_pos hr]
        rcases hkl : keyLt (heap.getD (2 * p + 1) dfltKey) (heap.getD (2 * p + 1 + 1) dfltKey)
            with e | b
        · exact List.Perm.refl _
        · cases b
          · have hrec := ih ((heap.set (2 * p + 1 + 1) (heap.getD p dfltKey)).set p
                (heap.getD (2 * p + 1 + 1) dfltKey)) s (2 * p + 1 + 1) (by simpa using hr)
            exact hrec.trans (set_set_swap_perm heap (2 * p + 1 + 1) p dfltKey hr hp (by omega))
          · have hrec := ih ((heap.set (2 * p + 1) (heap.getD p dfltKey)).set p
                (heap.getD (2 * p + 1) dfltKey)) s (2 * p + 1) (by simpa using hc1)
            exact hrec.trans (set_set_swap_perm heap (2 * p + 1) p dfltKey hc1 hp (by omega))
      · simp only [if_neg hr]
        have hrec := ih ((heap.set (2 * p + 1) (heap.getD p dfltKey)).set p
            (heap.getD (2 * p + 1) dfltKey)) s (2 * p + 1) (by simpa using hc1)
        exact hrec.trans (set_set_swap_perm heap (2 * p + 1) p dfltKey hc1 hp (by omega))
    · simp only [if_neg hlim]
      exact siftdownAux_perm _ _ _ _ hp

theorem heappush_length (heap : List SlowKey) (item : SlowKey) :
    (heappush heap item).fst.length = heap.length + 1 := by
  unfold heappush
  rw [siftdownAux_length]
  simp

theorem heappush_perm (heap : List SlowKey) (item : SlowKey) :
    (heappush heap item).fst.Perm (item :: heap) := by
  unfold heappush
  have h1 : (heap ++ [item]).length - 1 < (heap ++ [item]).length := by simp
  exact (siftdownAux_perm _ _ _ _ h1).trans (List.perm_append_singleton _ _)

theorem heapreplace_length (heap : List SlowKey) (item : SlowKey) :
    (heapreplace heap item).fst.length = heap.length := by
  unfold heapreplace
  rw [siftupAux_length]
  simp

theorem heapreplace_perm (heap : List SlowKey) (item : SlowKey) (h : heap ≠ []) :
    (heapreplace heap item).fst.Perm (item :: heap.tail) := by
  unfold heapreplace
  have h0 : 0 < (heap.set 0 item).length := by
    simp [List.length_pos.mpr h]
  have hset : heap.set 0 item = item :: heap.tail := by
    cases heap with
    | nil => exact absurd rfl h
    | cons a t => rfl
  exact hset ▸ siftupAux_perm _ _ _ _ h0

/-! ## Claims C4 and C5: the slow-call insertion policy -/

/-- C4 (amended): for every collect call whose duration meets the slow-call
threshold, if the slow-call set holds fewer than 10 entries the sample is
inserted; if it already holds 10 entries, `heapreplace` evicts the entry at
the heap root (the current minimum) and inserts the sample unconditionally,
even when the sample ranks lower than that minimum under tuple ordering;
the set never exceeds 10 entries. -/
theorem c4_bounded_slow_call_replacement (cs : CallStats) (m : Msg) (d : Int)
    (hlen : cs.slow_calls.length ≤ 10) :
    ((cs.collect m d).slow_calls.length ≤ 10)
    ∧ (¬ d < cs.slow_calls_duration_threshold → cs.slow_calls.length < 10 →
        ((cs.collect m d).slow_calls).Perm (mkSlowKey m d :: cs.slow_calls))
    ∧ (¬ d < cs.slow_calls_duration_threshold → cs.slow_calls.length = 10 →
        ((cs.collect m d).slow_calls).Perm (mkSlowKey m d :: cs.slow_calls.tail)) := by
  unfold CallStats.collect
  by_cases hd : d < cs.slow_calls_duration_threshold
  · simp only [if_pos hd]
    exact ⟨hlen, fun h _ => absurd hd h, fun h _ => absurd hd h⟩
  · simp only [if_neg hd]
    by_cases hfull : cs.slow_calls.length < 10
    · simp only [if_pos hfull]
      refine ⟨?_, fun _ _ => ?_, fun _ habs => ?_⟩
      · rw [heappush_length]; omega
      · exact heappush_perm _ _
      · omega
    · simp only [if_neg hfull]
      have hne : cs.slow_calls ≠ [] := by
        intro h
        rw [h] at hfull
        simp at hfull
      refine ⟨?_, fun _ habs => ?_, fun _ _ => ?_⟩
      · rw [heapreplace_length]; omega
      · omega
      · exact heapreplace_perm _ _ hne

def keyOfC4 (d : Int) : SlowKey := ⟨d, "u", "a", ⟨"m", PyAtom.pnone, [], PyAtom.pnone⟩⟩

def csC4 : CallStats :=
  ⟨0, [], [keyOfC4 1, keyOfC4 2, keyOfC4 3, keyOfC4 4, keyOfC4 5, keyOfC4 6, keyOfC4 7,
    keyOfC4 8, keyOfC4 9, keyOfC4 10]⟩

def mC4 : Msg := ⟨MsgKind.send, "u", "a", ⟨"m", PyAtom.pnone, [], PyAtom.pnone⟩⟩

/-- C4 counterexample: with the slow-call set full (durations 1..10) and a
sample of duration 0 that ranks strictly lower than the current minimum,
the claim requires the set to be unchanged, but `heapreplace` still evicts
the minimum and inserts the sample. -/
theorem c4_counterexample :
    keyLt (mkSlowKey mC4 0) (csC4.slow_calls.getD 0 dfltKey) = Except.ok true
    ∧ (csC4.collect mC4 0).slow_calls ≠ csC4.slow_calls := by
  constructor
  · rfl
  · decide

def csW4 : CallStats := ⟨0, [], []⟩

def mW4 : Msg := ⟨MsgKind.send, "v", "b", ⟨"f", PyAtom.pnone, [PyAtom.pint 1], PyAtom.pdictA []⟩⟩

theorem c4_witness :
    ((csW4.collect mW4 3).slow_calls.length ≤ 10)
    ∧ ((csW4.collect mW4 3).slow_calls).Perm (mkSlowKey mW4 3 :: csW4.slow_calls) :=
  ⟨(c4_bounded_slow_call_replacement csW4 mW4 3 (by decide)).1,
   (c4_bounded_slow_call_replacement csW4 mW4 3 (by decide)).2.1 (by decide) (by decide)⟩

theorem siftdownAux_first_error (fuel : Nat) (heap : List SlowKey) (s p : Nat)
    (hsp : s < p)
    (herr : keyLt (heap.getD p dfltKey) (heap.getD ((p - 1) / 2) dfltKey) = Except.error ()) :
    siftdownAux (fuel + 1) heap s p = (heap, false) := by
  have herr2 : keyLt (heap[p]?.getD dfltKey) (heap[(p - 1) / 2]?.getD dfltKey)
      = Except.error () := by
    simpa [List.getD_eq_getElem?_getD] using herr
  simp [siftdownAux, hsp, herr2]

/-- C5 (amended): for every collect call whose slow-call insertion raises
during a comparison, no error propagates to the caller and the call-counter
increment for that message is still applied, but the slow-call set is not
left exactly as it was: when the set held fewer than 10 entries and the
first heap comparison raises, `heappush` has already appended the sample,
so the sample stays in the list. -/
theorem c5_non_orderable_sample (cs : CallStats) (m : Msg) (d : Int)
    (hthr : ¬ d < cs.slow_calls_duration_threshold)
    (hlen : cs.slow_calls.length < 10)
    (hne : cs.slow_calls ≠ [])
    (herr : keyLt (mkSlowKey m d)
        (cs.slow_calls.getD ((cs.slow_calls.length - 1) / 2) dfltKey) = Except.error ()) :
    (cs.collect m d).slow_calls = cs.slow_calls ++ [mkSlowKey m d]
    ∧ (cs.collect m d).call_counter = counterInc cs.call_counter (m.uid, m.content.method) := by
  have hpos : 0 < cs.slow_calls.length := List.length_pos.mpr hne
  have hlen1 : (cs.slow_calls ++ [mkSlowKey m d]).length - 1 = cs.slow_calls.length := by
    simp
  have hnew : (cs.slow_calls ++ [mkSlowKey m d]).getD cs.slow_calls.length dfltKey
      = mkSlowKey m d := by
    simp [List.getD_eq_getElem?_getD, List.getElem?_concat_length]
  have hppos : (cs.slow_calls.length - 1) / 2 < cs.slow_calls.length := by omega
  have hpar : (cs.slow_calls ++ [mkSlowKey m d]).getD ((cs.slow_calls.length - 1) / 2) dfltKey
      = cs.slow_calls.getD ((cs.slow_calls.length - 1) / 2) dfltKey := by
    simp [List.getD_eq_getElem?_getD, List.getElem?_append_left hppos]
  have hpush : heappush cs.slow_calls (mkSlowKey m d) = (cs.slow_calls ++ [mkSlowKey m d], false) := by
    unfold heappush
    rw [hlen1]
    have := siftdownAux_first_error (cs.slow_calls.length + 1)
      (cs.slow_calls ++ [mkSlowKey m d]) 0 cs.slow_calls.length hpos
      (by rw [hnew, hpar]; exact herr)
    simpa using this
  unfold CallStats.collect
  simp only [if_neg hthr, if_pos hlen, hpush]
  exact ⟨trivial, trivial⟩

def keyC5 : SlowKey := ⟨5, "u", "a", ⟨"m", PyAtom.pnone, [], PyAtom.pdictA [("x", 1)]⟩⟩

def csC5 : CallStats := ⟨0, [], [keyC5]⟩

def mC5 : Msg := ⟨MsgKind.send, "u", "a", ⟨"m", PyAtom.pnone, [], PyAtom.pdictA [("y", 2)]⟩⟩

/-- C5 counterexample: a slow-call sample whose tuple comparison against the
single held entry raises (equal duration/uid/address/method/args, two
different kwargs dicts).  The claim requires the slow-call set to be exactly
as before; the aborted `heappush` leaves the sample appended instead. -/
theorem c5_counterexample :
    keyLt (mkSlowKey mC5 5) (csC5.slow_calls.getD 0 dfltKey) = Except.error ()
    ∧ (csC5.collect mC5 5).slow_calls ≠ csC5.slow_calls := by
  constructor
  · rfl
  · decide

theorem c5_witness :
    (csC5.collect mC5 5).slow_calls = csC5.slow_calls ++ [mkSlowKey mC5 5]
    ∧ (csC5.collect mC5 5).call_counter
        = counterInc csC5.call_counter (mC5.uid, mC5.content.method) :=
  c5_non_orderable_sample csC5 mC5 5 (by decide) (by decide) (by decide) (by decide)

/-! ## Claims C1 and C2: `MarsActorContext._wait`

`_wait` awaits `asyncio.shield(future)` inside a `try` with two handlers:
`except asyncio.CancelledError` (which issues `self.cancel(...)`, re-raising
`CancelledError` only when that raises `CannotCancelTask`) and a bare
`except` that swallows any other exception from the shielded await; on
falling through it returns `await future`.  A Python exception raised inside
an `except` handler body is *not* caught by the later handlers of the same
`try` statement, so a failure of the cancel RPC other than
`CannotCancelTask` propagates out of `_wait`.  The model below enumerates
the observable outcomes of the three awaits. -/

/-- Outcome of `await asyncio.shield(future)` in the awaiting task. -/
inductive ShieldOutcome (ε : Type) where
  | completed : ShieldOutcome ε
  | cancelledError : ShieldOutcome ε
  | failed : ε → ShieldOutcome ε
deriving DecidableEq, Repr

/-- Outcome of the `self.cancel(address, message.message_id)` RPC. -/
inductive CancelOutcome (ε : Type) where
  | ok : CancelOutcome ε
  | cannotCancelTask : CancelOutcome ε
  | failed : ε → CancelOutcome ε
deriving DecidableEq, Repr

/-- What `_wait` raises: a `CancelledError` or some other exception. -/
inductive WaitError (ε : Type) where
  | cancelled : WaitError ε
  | exc : ε → WaitError ε
deriving DecidableEq, Repr

/-- `MarsActorContext._wait(future, address, message)`: `futureResult` is
what the final `return await future` would produce (it is only consulted on
the paths that reach that statement). -/
def waitModel {α ε : Type} (shield : ShieldOutcome ε) (cancelRPC : CancelOutcome ε)
    (futureResult : Except (WaitError ε) α) : Except (WaitError ε) α :=
  match shield with
  | ShieldOutcome.completed => futureResult
  | ShieldOutcome.failed _ => futureResult
  | ShieldOutcome.cancelledError =>
    match cancelRPC with
    | CancelOutcome.ok => futureResult
    | CancelOutcome.cannotCancelTask => Except.error WaitError.cancelled
    | CancelOutcome.failed e => Except.error (WaitError.exc e)

/-- C1 counterexample: the awaiting task is cancelled while shielded and the
cancel RPC fails with an error other than the cannot-cancel condition, while
the original handle holds the result 42.  The claim requires the failure to
be swallowed and 42 returned; `_wait` propagates the failure instead. -/
theorem c1_counterexample :
    waitModel ShieldOutcome.cancelledError (CancelOutcome.failed 7)
        (Except.ok (42 : Int) : Except (WaitError Nat) Int)
      = Except.error (WaitError.exc 7)
    ∧ waitModel ShieldOutcome.cancelledError (CancelOutcome.failed 7)
        (Except.ok (42 : Int) : Except (WaitError Nat) Int)
      ≠ Except.ok (42 : Int) := by
  exact ⟨rfl, by decide⟩

/-- C1 (amended): if the awaiting task is cancelled while the pending handle
is shielded, the explicit cancel RPC is issued; if it fails with the
dedicated cannot-cancel condition the cancellation is re-raised to the
caller; if it succeeds the original handle is awaited again and its result
returned; and any other failure of the cancel RPC propagates to the caller
(it is not swallowed — only a non-cancellation failure of the shielded
await itself is swallowed before the final await). -/
theorem c1_cancellation_safe_wait {α ε : Type} (fr : Except (WaitError ε) α) (e : ε) :
    waitModel ShieldOutcome.cancelledError CancelOutcome.cannotCancelTask fr
      = Except.error WaitError.cancelled
    ∧ waitModel ShieldOutcome.cancelledError CancelOutcome.ok fr = fr
    ∧ waitModel ShieldOutcome.cancelledError (CancelOutcome.failed e) fr
      = Except.error (WaitError.exc e)
    ∧ (∀ c : CancelOutcome ε, waitModel (ShieldOutcome.failed e) c fr = fr) :=
  ⟨rfl, rfl, rfl, fun _ => rfl⟩

/-- C2 counterexample: the caller's task is cancelled while shielded, the
remote call has already finished (the cancel RPC reports the cannot-cancel
condition) and the original handle holds the result 7.  The claim requires
the caller to receive 7; `_wait` raises the cancellation instead of
re-awaiting the original handle. -/
theorem c2_counterexample :
    waitModel ShieldOutcome.cancelledError CancelOutcome.cannotCancelTask
        (Except.ok (7 : Int) : Except (WaitError Nat) Int)
      = Except.error WaitError.cancelled := rfl

/-- C2 (amended): the wait routine awaits the original handle and returns
what it holds on the paths where the shielded await completes, where it
fails with a non-cancellation error, and where the caller is cancelled and
the explicit cancel RPC returns normally; but when the cancel RPC reports
the cannot-cancel condition the caller receives a cancellation even if the
original handle holds a result (and any other cancel-RPC failure
propagates), so not every path returns the handle's result. -/
theorem c2_result_wins_paths {α ε : Type} (fr : Except (WaitError ε) α) (e : ε) (r : α) :
    waitModel ShieldOutcome.completed CancelOutcome.ok fr = fr
    ∧ waitModel (ShieldOutcome.failed e) CancelOutcome.ok fr = fr
    ∧ waitModel ShieldOutcome.cancelledError CancelOutcome.ok fr = fr
    ∧ waitModel ShieldOutcome.cancelledError CancelOutcome.cannotCancelTask
        (Except.ok r : Except (WaitError ε) α) = Except.error WaitError.cancelled :=
  ⟨rfl, rfl, rfl, rfl⟩

/-! ## Claim C8: `_ProfilingData.collect_actor_call` fan-out -/

/-- The process-wide `_call_stats` registry: `task_id -> _CallStats`,
in insertion order. -/
def StatsRegistry : Type := List (String × CallStats)

/-- `_ProfilingData.collect_actor_call(message, duration)`: when the
registry is non-empty and the message is exactly a Send or Tell message,
forward the sample to every registered task's `_CallStats`. -/
def collect_actor_call (reg : StatsRegistry) (m : Msg) (d : Int) : StatsRegistry :=
  if reg.isEmpty then reg
  else if m.kind = MsgKind.send ∨ m.kind = MsgKind.tell then
    reg.map (fun p => (p.fst, p.snd.collect m d))
  else reg

/-- C8: for a Send or Tell message every currently registered task's
CallStats receives the sample (all of them); for any other kind, or with no
task registered, the registry is returned unchanged. -/
theorem c8_registry_fanout (reg : StatsRegistry) (m : Msg) (d : Int) :
    collect_actor_call reg m d =
      if m.kind = MsgKind.send ∨ m.kind = MsgKind.tell then
        reg.map (fun p => (p.fst, p.snd.collect m d))
      else reg := by
  unfold collect_actor_call
  cases hreg : reg with
  | nil => simp
  | cons a t => simp

/-! ## Claims C3 and C7: control-plane protocols of `MarsActorContext`

The transport is modelled by oracle functions giving the remote response to
each kind of dispatched message; each operation returns the ordered list of
remote calls it issued together with its outcome. -/

structure ActorRefS where
  address : String
  uid : String
deriving DecidableEq, Repr

inductive CtrlType where
  | get_config | stop | wait_pool_recovered
deriving DecidableEq, Repr

/-- Arguments carried by a ControlMessage in these protocols. -/
inductive CtrlArgs where
  | mainPoolField : CtrlArgs
  | stopTimeout3 : Bool → CtrlArgs
  | noArg : CtrlArgs
deriving DecidableEq, Repr

/-- A remote call issued through `_call`: either a ControlMessage
(destination address, payload target address, control type, args) or an
ActorRefMessage lookup (address, uid). -/
inductive CallRec where
  | control : String → String → CtrlType → CtrlArgs → CallRec
  | actorRefLookup : String → String → CallRec
deriving DecidableEq, Repr

def CallRec.isStop : CallRec → Bool
  | CallRec.control _ _ CtrlType.stop _ => true
  | _ => false

def CallRec.isWaitPoolRecovered : CallRec → Bool
  | CallRec.control _ _ CtrlType.wait_pool_recovered _ => true
  | _ => false

/-- Errors surfacing from a traced control-plane operation: the local
`ValueError` guard or a re-raised remote error. -/
inductive CtxError (ε : Type) where
  | valueError : String → CtxError ε
  | remote : ε → CtxError ε
deriving DecidableEq, Repr

/-- `MarsActorContext.actor_ref(actor_ref)`: a local in-process shortcut
resolves without a network call, otherwise an ActorRefMessage is
dispatched. -/
def resolveRef {ε : Type} (localRef : ActorRefS → Option ActorRefS)
    (refOracle : ActorRefS → Except ε ActorRefS) (ref : ActorRefS) :
    List CallRec × Except ε ActorRefS :=
  match localRef ref with
  | some r => ([], Except.ok r)
  | none => ([CallRec.actorRefLookup ref.address ref.uid], refOracle ref)

/-- `MarsActorContext.kill_actor(actor_ref, force)`: fetch
`main_pool_address` from the actor's pool via Control/get_config, resolve
the ref to its canonical address, refuse with `ValueError` when that address
is the main pool's, otherwise send a Control/stop message for the hosting
sub-pool to the main pool with `(3.0, force)`. -/
def kill_actor {ε : Type} (cfgOracle : String → Except ε String)
    (localRef : ActorRefS → Option ActorRefS)
    (refOracle : ActorRefS → Except ε ActorRefS)
    (stopOracle : String → Bool → Except ε Unit)
    (ref : ActorRefS) (force : Bool) : List CallRec × Except (CtxError ε) Unit :=
  let t1 := [CallRec.control ref.address ref.address CtrlType.get_config CtrlArgs.mainPoolField]
  match cfgOracle ref.address with
  | Except.error e => (t1, Except.error (CtxError.remote e))
  | Except.ok main =>
    let res := resolveRef localRef refOracle ref
    let t2 := t1 ++ res.fst
    match res.snd with
    | Except.error e => (t2, Except.error (CtxError.remote e))
    | Except.ok real =>
      if real.address = main then
        (t2, Except.error (CtxError.valueError "Cannot kill actor on main pool"))
      else
        let t3 := t2 ++ [CallRec.control main real.address CtrlType.stop
          (CtrlArgs.stopTimeout3 force)]
        match stopOracle main force with
        | Except.error e => (t3, Except.error (CtxError.remote e))
        | Except.ok _ => (t3, Except.ok ())

/-- C3 counterexample: an actor whose pool reports main pool "M" and whose
canonical ref resolves locally to an address equal to "M".  `kill_actor`
does fail with the explicit `ValueError`, but only after issuing the
Control/get_config remote call, contradicting "fails immediately and
locally with no remote call issued". -/
theorem c3_counterexample :
    (kill_actor (fun _ => Except.ok "M")
        (fun r => some ⟨"M", r.uid⟩)
        (fun _ => Except.error (0 : Nat))
        (fun _ _ => Except.ok ())
        ⟨"A", "u"⟩ true).fst
      = [CallRec.control "A" "A" CtrlType.get_config CtrlArgs.mainPoolField]
    ∧ (kill_actor (fun _ => Except.ok "M")
        (fun r => some ⟨"M", r.uid⟩)
        (fun _ => Except.error (0 : Nat))
        (fun _ _ => Except.ok ())
        ⟨"A", "u"⟩ true).snd
      = Except.error (CtxError.valueError "Cannot kill actor on main pool")
    ∧ (kill_actor (fun _ => Except.ok "M")
        (fun r => some ⟨"M", r.uid⟩)
        (fun _ => Except.error (0 : Nat))
        (fun _ _ => Except.ok ())
        ⟨"A", "u"⟩ true).fst ≠ [] :=
  ⟨rfl, rfl, by decide⟩

/-- C3 (amended): for every actor ref whose canonical (resolved) address
equals the fetched main_pool_address, `kill_actor` fails with the explicit
`ValueError` for any value of force; the check runs only after the
Control/get_config fetch (and any actor_ref lookup), but no Control/stop
message is ever issued on this path. -/
theorem c3_main_pool_kill_protection {ε : Type} (cfgOracle : String → Except ε String)
    (localRef : ActorRefS → Option ActorRefS)
    (refOracle : ActorRefS → Except ε ActorRefS)
    (stopOracle : String → Bool → Except ε Unit)
    (ref : ActorRefS) (force : Bool) (main : String) (real : ActorRefS)
    (hcfg : cfgOracle ref.address = Except.ok main)
    (hres : (resolveRef localRef refOracle ref).snd = Except.ok real)
    (hmain : real.address = main) :
    (kill_actor cfgOracle localRef refOracle stopOracle ref force).snd
      = Except.error (CtxError.valueError "Cannot kill actor on main pool")
    ∧ ∀ c ∈ (kill_actor cfgOracle localRef refOracle stopOracle ref force).fst,
        c.isStop = false := by
  rcases hl : localRef ref with _ | r0
  · have hro : refOracle ref = Except.ok real := by
      simp only [resolveRef, hl] at hres
      exact hres
    refine ⟨?_, ?_⟩
    · simp [kill_actor, resolveRef, hcfg, hl, hro, hmain]
    · simp only [kill_actor, resolveRef, hcfg, hl, hro, hmain, if_pos]
      intro c hc
      simp only [List.mem_append, List.mem_singleton, List.mem_cons, List.not_mem_nil,
        or_false] at hc
      rcases hc with h | h <;> (rw [h]; rfl)
  · have hr0 : r0 = real := by
      simp only [resolveRef, hl] at hres
      exact Except.ok.inj hres
    subst hr0
    refine ⟨?_, ?_⟩
    · simp [kill_actor, resolveRef, hcfg, hl, hmain]
    · simp only [kill_actor, resolveRef, hcfg, hl, hmain, if_pos]
      intro c hc
      simp only [List.append_nil, List.mem_cons, List.not_mem_nil, or_false] at hc
      rw [hc]; rfl

theorem c3_witness :
    (kill_actor (fun _ => (Except.ok "M" : Except Nat String))
        (fun _ => (none : Option ActorRefS))
        (fun r => (Except.ok ⟨"M", r.uid⟩ : Except Nat ActorRefS))
        (fun _ _ => (Except.ok () : Except Nat Unit))
        (⟨"A", "u"⟩ : ActorRefS) false).snd
      = Except.error (CtxError.valueError "Cannot kill actor on main pool") :=
  (c3_main_pool_kill_protection (fun _ => (Except.ok "M" : Except Nat String))
    (fun _ => (none : Option ActorRefS))
    (fun r => (Except.ok ⟨"M", r.uid⟩ : Except Nat ActorRefS))
    (fun _ _ => (Except.ok () : Except Nat Unit))
    ⟨"A", "u"⟩ false "M" ⟨"M", "u"⟩ rfl rfl rfl).1

/-- `MarsActorContext.wait_actor_pool_recovered(address, main_address)`:
fetch the main pool address via Control/get_config when not supplied;
return immediately when `address == main_address`; otherwise dispatch a
Control/wait_pool_recovered message to the main pool and await it. -/
def wait_actor_pool_recovered {ε : Type} (cfgOracle : String → Except ε String)
    (waitOracle : String → Except ε Unit)
    (address : String) (main_address : Option String) :
    List CallRec × Except (CtxError ε) Unit :=
  match main_address with
  | some m =>
    if address = m then ([], Except.ok ())
    else
      let t := [CallRec.control m address CtrlType.wait_pool_recovered CtrlArgs.noArg]
      match waitOracle m with
      | Except.error e => (t, Except.error (CtxError.remote e))
      | Except.ok _ => (t, Except.ok ())
  | none =>
    let t1 := [CallRec.control address address CtrlType.get_config CtrlArgs.mainPoolField]
    match cfgOracle address with
    | Except.error e => (t1, Except.error (CtxError.remote e))
    | Except.ok m =>
      if address = m then (t1, Except.ok ())
      else
        let t2 := t1 ++ [CallRec.control m address CtrlType.wait_pool_recovered CtrlArgs.noArg]
        match waitOracle m with
        | Except.error e => (t2, Except.error (CtxError.remote e))
        | Except.ok _ => (t2, Except.ok ())

/-- C7: with `main_address` supplied equal to `address` the call returns
immediately with an empty call trace; and whenever the supplied or fetched
main address equals `address`, the call succeeds without issuing any
wait_pool_recovered control message. -/
theorem c7_main_pool_never_recovered {ε : Type} (cfgOracle : String → Except ε String)
    (waitOracle : String → Except ε Unit) (a : String) (ma : Option String)
    (h : ma = some a ∨ (ma = none ∧ cfgOracle a = Except.ok a)) :
    (ma = some a →
      wait_actor_pool_recovered cfgOracle waitOracle a ma = ([], Except.ok ()))
    ∧ (wait_actor_pool_recovered cfgOracle waitOracle a ma).snd = Except.ok ()
    ∧ ∀ c ∈ (wait_actor_pool_recovered cfgOracle waitOracle a ma).fst,
        c.isWaitPoolRecovered = false := by
  rcases h with h | ⟨h, hcfg⟩
  · subst h
    refine ⟨fun _ => ?_, ?_, ?_⟩ <;> simp [wait_actor_pool_recovered]
  · subst h
    refine ⟨fun hh => by simp at hh, ?_, ?_⟩ <;>
      simp [wait_actor_pool_recovered, hcfg, CallRec.isWaitPoolRecovered]

theorem c7_witness :
    wait_actor_pool_recovered (fun _ => (Except.ok "P" : Except Nat String))
        (fun _ => (Except.ok () : Except Nat Unit)) "P" (some "P") = ([], Except.ok ()) :=
  (c7_main_pool_never_recovered (fun _ => (Except.ok "P" : Except Nat String))
    (fun _ => (Except.ok () : Except Nat Unit)) "P" (some "P") (Or.inl rfl)).1 rfl

/-! ## The profiling registry `_ProfilingData` (claims C9 and C10)

The per-task profiling tree is a JSON-like dict; `to_dict` renders the
stats snapshot that `pop` and the debug loop fold into the tree. -/

inductive JVal where
  | jnum : Int → JVal
  | jstr : String → JVal
  | jobj : List (String × JVal) → JVal

/-- Single-quote, `\x7b` and `\x7d` characters used by Python repr output. -/
def sqc : String := String.singleton (Char.ofNat 39)

def obrc : String := String.singleton (Char.ofNat 123)

def cbrc : String := String.singleton (Char.ofNat 125)

/-- Python `repr` of an atom (as it appears inside a tuple or dict). -/
def atomRepr : PyAtom → String
  | PyAtom.pint n => toString n
  | PyAtom.pstr s => sqc ++ s ++ sqc
  | PyAtom.pnone => "None"
  | PyAtom.pdictA kvs =>
      obrc ++ String.intercalate ", "
        (kvs.map (fun kv => sqc ++ kv.fst ++ sqc ++ ": " ++ toString kv.snd)) ++ cbrc

/-- Python `str` of a tuple of atoms (`repr` elementwise, singleton comma). -/
def argsRepr : List PyAtom → String
  | [] => "()"
  | [a] => "(" ++ atomRepr a ++ ",)"
  | xs => "(" ++ String.intercalate ", " (xs.map atomRepr) ++ ")"

/-- Python `str` of an atom at top level (strings unquoted, containers by repr). -/
def atomStrFn : PyAtom → String
  | PyAtom.pstr s => s
  | a => atomRepr a

/-- The f-string key rendered for one slow call:
`[address]uid.method(args=..., kwargs=...)`. -/
def slowKeyRender (k : SlowKey) : String :=
  "[" ++ k.address ++ "]" ++ k.uid ++ "." ++ k.content.method ++
    "(args=" ++ argsRepr k.content.args ++ ", kwargs=" ++ atomStrFn k.content.kwargs ++ ")"

/-- Stable insertion into a descending-by-key list: an element is placed
after all earlier elements with a key at least as large (this reproduces
both `Counter.most_common` and Python `sorted(..., reverse=True)`, which
keep the original order of ties). -/
def insertDescBy {α : Type} (key : α → Int) (a : α) : List α → List α
  | [] => [a]
  | b :: t => if key b < key a then a :: b :: t else b :: insertDescBy key a t

def sortDescBy {α : Type} (key : α → Int) : List α → List α
  | [] => []
  | a :: t => insertDescBy key a (sortDescBy key t)

/-- Python dict assignment `d[k] = v`: an existing key keeps its position,
a new key is appended. -/
def dictSet : List (String × JVal) → String → JVal → List (String × JVal)
  | [], k, v => [(k, v)]
  | (k', v') :: t, k, v =>
      if k' = k then (k, v) :: t else (k', v') :: dictSet t k v

/-- Python `d.update(u)`: assign every key of `u` into `d` in order. -/
def dictUpdate (d : List (String × JVal)) (u : List (String × JVal)) :
    List (String × JVal) :=
  u.foldl (fun acc kv => dictSet acc kv.fst kv.snd) d

/-- `_CallStats.to_dict()`: the ten most frequent `(uid, method)` keys with
their counts, and the recorded slow calls sorted by duration descending. -/
def CallStats.to_dict (cs : CallStats) : List (String × JVal) :=
  [("most_calls", JVal.jobj
      (((sortDescBy (fun p => Int.ofNat p.snd) cs.call_counter).take 10).foldl
        (fun d p => dictSet d (p.fst.fst ++ "." ++ p.fst.snd) (JVal.jnum (Int.ofNat p.snd)))
        [])),
   ("slow_calls", JVal.jobj
      ((sortDescBy (fun k => k.duration) cs.slow_calls).foldl
        (fun d k => dictSet d (slowKeyRender k) (JVal.jnum k.duration)) []))]

/-- Association-list lookup (Python `dict.get`). -/
def alistGet {β : Type} : List (String × β) → String → Option β
  | [], _ => none
  | (k', v) :: t, k => if k' = k then some v else alistGet t k

/-- Python `dict.pop(k, None)`: the removed value (if any) and the
remaining entries. -/
def alistPop {β : Type} : List (String × β) → String → Option β × List (String × β)
  | [], _ => (none, [])
  | (k', v) :: t, k =>
      if k' = k then (some v, t)
      else
        ((alistPop t k).fst, (k', v) :: (alistPop t k).snd)

/-- Python `d[k] = v` on an association list. -/
def alistSet {β : Type} : List (String × β) → String → β → List (String × β)
  | [], k, v => [(k, v)]
  | (k', v') :: t, k, v =>
      if k' = k then (k, v) :: t else (k', v') :: alistSet t k v

/-- State of the process-wide `_ProfilingData` registry.  Debug tasks are
identified by handles; `cancelled` records the handles on which `.cancel()`
has been invoked; `nextHandle` feeds `asyncio.create_task`. -/
structure PState where
  data : List (String × List (String × JVal))
  call_stats : List (String × CallStats)
  debug_task : List (String × Nat)
  cancelled : List Nat
  nextHandle : Nat

/-- `_ProfilingData.pop(task_id)`: pop and cancel any debug task, pop the
tree; when the tree existed, `self._call_stats.pop(task_id)` is called
without a default and raises `KeyError` (modelled as `Except.error`) if the
stats entry is missing; otherwise the stats snapshot is folded into the
returned tree. -/
def PState.pop (s : PState) (tid : String) :
    Except Unit (PState × Option (List (String × JVal))) :=
  let dpop := alistPop s.debug_task tid
  let cancelled2 := s.cancelled ++ dpop.fst.toList
  let rpop := alistPop s.data tid
  match rpop.fst with
  | none =>
      Except.ok
        (PState.mk rpop.snd s.call_stats dpop.snd cancelled2 s.nextHandle, none)
  | some tree =>
    match alistGet s.call_stats tid with
    | none => Except.error ()
    | some cs =>
        Except.ok
          (PState.mk rpop.snd (alistPop s.call_stats tid).snd dpop.snd cancelled2 s.nextHandle,
           some (dictUpdate tree cs.to_dict))

/-- The fresh per-task tree created by `_ProfilingData.init`. -/
def freshTree : List (String × JVal) :=
  [("general", JVal.jobj []), ("serialization", JVal.jobj []),
   ("most_calls", JVal.jobj []), ("slow_calls", JVal.jobj []),
   ("band_subtasks", JVal.jobj []), ("slow_subtasks", JVal.jobj [])]

/-! ## `_ProfilingOptions` and `_ProfilingData.init` (claim C10) -/

/-- The value passed as `options` to `_ProfilingData.init`.  Option values
inside a mapping are numbers in practice and are modelled as `Int`. -/
inductive OptionsArg where
  | mapO : List (String × Int) → OptionsArg
  | pybool : Bool → OptionsArg
  | pynoneO : OptionsArg
  | pyintO : Int → OptionsArg
  | potherO : String → OptionsArg
deriving DecidableEq, Repr

/-- Python `options in (True, False, None)`: membership uses `==`, and
`1 == True`, `0 == False`, so the ints 0 and 1 also pass this test. -/
def eqTrueFalseNone : OptionsArg → Bool
  | OptionsArg.pybool _ => true
  | OptionsArg.pynoneO => true
  | OptionsArg.pyintO n => decide (n = 0) || decide (n = 1)
  | _ => false

/-- The declared option descriptors of `_ProfilingOptions`. -/
def declaredOptionNames : List String :=
  ["debug_interval_seconds", "slow_calls_duration_threshold",
   "slow_subtasks_duration_threshold"]

/-- `type(self).__dict__.keys()` for `_ProfilingOptions`: besides the three
descriptors the class dictionary holds the standard class attributes created
with every class body. -/
def classDictKeys : List String :=
  declaredOptionNames ++
    ["__module__", "__qualname__", "__init__", "__dict__", "__weakref__", "__doc__"]

/-- The validated `_options` mapping held by a `_ProfilingOptions` instance. -/
structure POptions where
  explicit : List (String × Int)
deriving DecidableEq, Repr

/-- `_ProfilingOptions.__init__(options)`: a mapping is accepted iff
`options.keys() - type(self).__dict__.keys()` is empty; `True`, `False`,
`None` (and values comparing equal to them) yield an empty mapping; anything
else raises `ValueError`. -/
def mkOptions : OptionsArg → Except String POptions
  | OptionsArg.mapO kvs =>
      if kvs.all (fun kv => decide (kv.fst ∈ classDictKeys)) then Except.ok ⟨kvs⟩
      else Except.error "Invalid profiling options"
  | o =>
      if eqTrueFalseNone o then Except.ok ⟨[]⟩
      else Except.error "Invalid profiling options"

/-- The descriptor protocol of `_ProfilingOptionDescriptor.__get__`: an
explicit option value wins, else the `MARS_PROFILING_<NAME>` environment
override, else the declared default.  The `float`/`int` conversion applied
by the descriptor is numeric-identity here; an environment string that does
not parse as a number is modelled as absent. -/
def resolveOptInt (o : POptions) (env : String → Option String)
    (name envName : String) (dflt : Option Int) : Option Int :=
  match alistGet o.explicit name with
  | some v => some v
  | none =>
    match env envName with
    | some sv => sv.toInt?
    | none => dflt

/-- `_ProfilingData.init(task_id, options)`: validate the options (raising
before any registry entry is created), install the fresh tree and a
`_CallStats` carrying the resolved slow-call threshold, and start a debug
task iff `debug_interval_seconds` resolves to a value. -/
def PState.init (s : PState) (env : String → Option String) (tid : String)
    (options : OptionsArg) : Except String PState :=
  match mkOptions options with
  | Except.error e => Except.error e
  | Except.ok o =>
    let thr := (resolveOptInt o env "slow_calls_duration_threshold"
      "MARS_PROFILING_SLOW_CALLS_DURATION_THRESHOLD" (some 1)).getD 1
    let s1 := PState.mk (alistSet s.data tid freshTree)
      (alistSet s.call_stats tid (CallStats.mk thr [] []))
      s.debug_task s.cancelled s.nextHandle
    match resolveOptInt o env "debug_interval_seconds"
        "MARS_PROFILING_DEBUG_INTERVAL_SECONDS" none with
    | some _ =>
        Except.ok (PState.mk s1.data s1.call_stats
          (alistSet s1.debug_task tid s.nextHandle) s1.cancelled (s.nextHandle + 1))
    | none => Except.ok s1

/-! ## Claim C9: pop semantics -/

theorem alistGet_none_pop {β : Type} (l : List (String × β)) (k : String)
    (h : alistGet l k = none) : alistPop l k = (none, l) := by
  induction l with
  | nil => rfl
  | cons a t ih =>
    rcases a with ⟨k', v⟩
    by_cases hk : k' = k
    · rw [alistGet, if_pos hk] at h
      exact absurd h (by simp)
    · rw [alistGet, if_neg hk] at h
      rw [alistPop, if_neg hk, ih h]

/-- C9: popping a registered task_id (present in both `data` and
`call_stats`) removes its entries, cancels any pending debug task, and
returns the tree merged with the final CallStats snapshot; popping an
unknown task_id (absent from `data` and `debug_task`) returns nothing
without raising and leaves the registry exactly unchanged. -/
theorem c9_pop_semantics (s : PState) (tid : String) :
    (∀ tree cs, alistGet s.data tid = some tree →
      alistGet s.call_stats tid = some cs →
      s.pop tid = Except.ok
        (PState.mk (alistPop s.data tid).snd (alistPop s.call_stats tid).snd
          (alistPop s.debug_task tid).snd
          (s.cancelled ++ (alistPop s.debug_task tid).fst.toList) s.nextHandle,
         some (dictUpdate tree cs.to_dict)))
    ∧ (alistGet s.data tid = none → alistGet s.debug_task tid = none →
      s.pop tid = Except.ok (s, none)) := by
  constructor
  · intro tree cs hdata hcs
    have hdp : (alistPop s.data tid).fst = some tree := by
      have : ∀ l : List (String × List (String × JVal)), alistGet l tid = some tree →
          (alistPop l tid).fst = some tree := by
        intro l
        induction l with
        | nil => intro h; exact absurd h (by simp [alistGet])
        | cons a t ih =>
          rcases a with ⟨k', v⟩
          intro h
          by_cases hk : k' = tid
          · rw [alistGet, if_pos hk] at h
            rw [alistPop, if_pos hk]
            exact h
          · rw [alistGet, if_neg hk] at h
            rw [alistPop, if_neg hk]
            exact ih h
      exact this _ hdata
    unfold PState.pop
    simp only [hdp, hcs]
  · intro hdata hdt
    have h1 := alistGet_none_pop s.data tid hdata
    have h2 := alistGet_none_pop s.debug_task tid hdt
    unfold PState.pop
    simp only [h1, h2, Option.toList_none, List.append_nil]

def sW9 : PState :=
  PState.mk [("t", freshTree)] [("t", CallStats.mk 1 [] [])] [("t", 0)] [] 1

theorem c9_witness :
    sW9.pop "t" = Except.ok
      (PState.mk (alistPop sW9.data "t").snd (alistPop sW9.call_stats "t").snd
        (alistPop sW9.debug_task "t").snd
        (sW9.cancelled ++ (alistPop sW9.debug_task "t").fst.toList) sW9.nextHandle,
       some (dictUpdate freshTree (CallStats.mk 1 [] []).to_dict)) :=
  (c9_pop_semantics sW9 "t").1 freshTree (CallStats.mk 1 [] []) rfl rfl

/-! ## Claim C10: option validation at init -/

/-- C10 counterexample: `"__init__"` is not a declared option name, yet
`options.keys() - type(self).__dict__.keys()` is empty for it (the class
dictionary contains `__init__`), so `init` succeeds and creates the
registry entries instead of raising `ValueError`. -/
theorem c10_counterexample :
    PState.init (PState.mk [] [] [] [] 0) (fun _ => none) "t"
        (OptionsArg.mapO [("__init__", 5)])
      = Except.ok (PState.mk [("t", freshTree)] [("t", CallStats.mk 1 [] [])] [] [] 0) := rfl

/-- C10 (amended): `init` with options `True`, `False` or `None` (or an int
comparing equal to them) behaves exactly as with an empty mapping (options
fall back to environment override or default); a non-mapping value not
comparing equal to `True`/`False`/`None` raises `ValueError` before any
registry entry is created; and a mapping raises `ValueError` iff it has a
key outside the options class dictionary — which contains the three
declared option names together with standard class attributes such as
`__init__`, so such keys pass validation. -/
theorem c10_option_validation (s : PState) (env : String → Option String) (tid : String) :
    (∀ b : Bool, PState.init s env tid (OptionsArg.pybool b)
        = PState.init s env tid (OptionsArg.mapO []))
    ∧ PState.init s env tid OptionsArg.pynoneO = PState.init s env tid (OptionsArg.mapO [])
    ∧ (∀ n : Int, ¬ (n = 0 ∨ n = 1) →
        PState.init s env tid (OptionsArg.pyintO n) = Except.error "Invalid profiling options")
    ∧ (∀ str : String, PState.init s env tid (OptionsArg.potherO str)
        = Except.error "Invalid profiling options")
    ∧ (∀ (kvs : List (String × Int)) (k : String), k ∈ kvs.map Prod.fst →
        k ∉ classDictKeys →
        PState.init s env tid (OptionsArg.mapO kvs) = Except.error "Invalid profiling options") := by
  refine ⟨fun b => ?_, rfl, fun n hn => ?_, fun str => rfl, fun kvs k hk hnk => ?_⟩
  · cases b <;> rfl
  · have h0 : ¬ n = 0 := fun h => hn (Or.inl h)
    have h1 : ¬ n = 1 := fun h => hn (Or.inr h)
    simp [PState.init, mkOptions, eqTrueFalseNone, h0, h1]
  · have hall : kvs.all (fun kv => decide (kv.fst ∈ classDictKeys)) = false := by
      rcases List.mem_map.mp hk with ⟨kv, hkv, hfst⟩
      rw [List.all_eq_false]
      exact ⟨kv, hkv, by simp [hfst, hnk]⟩
    simp [PState.init, mkOptions, hall]

theorem c10_witness :
    PState.init (PState.mk [] [] [] [] 0) (fun _ => none) "t"
        (OptionsArg.mapO [("bogus", 1)]) = Except.error "Invalid profiling options" :=
  (c10_option_validation (PState.mk [] [] [] [] 0) (fun _ => none) "t").2.2.2.2
    [("bogus", 1)] "bogus" (by simp) (by decide)

/-! ## Claim C6: the Percentile collector

The `Percentile` class itself is not part of the source snapshot (only its
tests are), so it is modelled from the design document. -/

def sortInts (l : List Int) : List Int := List.insertionSort (fun a b => a ≤ b) l

/-- The bounded-structure capacity `k = ceil(window * (100 - percentile) / 100)`. -/
def percentileCapacity (pct window : Nat) : Nat := (window * (100 - pct) + 99) / 100

/-- Modelled from the spec: the `Percentile` collector state.  The held
structure keeps the `k` smallest recorded values; it is represented as a
sorted ascending list so that its maximum is its last element.  `reported`
records the values passed to the callback, in order. -/
structure Percentile where
  window : Nat
  capacity : Nat
  held : List Int
  samples_seen : Nat
  fired : Bool
  reported : List Int
deriving DecidableEq, Repr

/-- Modelled from the spec: `Percentile.record_data(value)`.  Once the
collector has fired every call is a no-op.  Otherwise the sample count is
incremented and the value enters the bounded structure only if there is
room or it is smaller than the current maximum held (inserting into the
sorted list and truncating to capacity realises exactly that policy); when
`samples_seen` reaches `window` the callback fires once with the current
maximum of the held set and the collector is marked fired. -/
def Percentile.record_data (p : Percentile) (v : Int) : Percentile :=
  if p.fired then p
  else
    let held2 := (List.orderedInsert (fun a b => a ≤ b) v p.held).take p.capacity
    let seen2 := p.samples_seen + 1
    if seen2 = p.window then
      Percentile.mk p.window p.capacity held2 seen2 true (p.reported ++ [held2.getLastD 0])
    else
      Percentile.mk p.window p.capacity held2 seen2 false p.reported

/-- Modelled from the spec: a freshly constructed collector for percentile
`pct` and window `window`. -/
def Percentile.fresh (pct window : Nat) : Percentile :=
  Percentile.mk window (percentileCapacity pct window) [] 0 false []

/-- Feeding a sequence of samples to a collector. -/
def Percentile.run (p : Percentile) (vs : List Int) : Percentile :=
  vs.foldl Percentile.record_data p

theorem take_orderedInsert_take (v : Int) (L : List Int) :
    ∀ k : Nat, (List.orderedInsert (fun a b => a ≤ b) v (L.take k)).take k
      = (List.orderedInsert (fun a b => a ≤ b) v L).take k := by
  induction L with
  | nil => intro k; simp
  | cons a t ih =>
    intro k
    cases k with
    | zero => rfl
    | succ k =>
      rw [List.take_succ_cons, List.orderedInsert, List.orderedInsert]
      by_cases hva : v ≤ a
      · rw [if_pos hva, if_pos hva, List.take_succ_cons, List.take_succ_cons]
        congr 1
        cases k with
        | zero => rfl
        | succ j =>
          rw [List.take_succ_cons, List.take_succ_cons]
          congr 1
          rw [List.take_take]
          congr 1
          omega
      · rw [if_neg hva, if_neg hva, List.take_succ_cons, List.take_succ_cons]
        congr 1
        exact ih k

theorem sortInts_append_singleton (l : List Int) (v : Int) :
    sortInts (l ++ [v]) = List.orderedInsert (fun a b => a ≤ b) v (sortInts l) := by
  have p1 := List.perm_insertionSort (fun a b => a ≤ b) (l ++ [v])
  have p2 := List.perm_append_singleton v l
  have p3 := (List.perm_insertionSort (fun a b => a ≤ b) l).symm.cons v
  have p4 := (List.perm_orderedInsert (fun a b => a ≤ b) v
    (List.insertionSort (fun a b => a ≤ b) l)).symm
  exact List.eq_of_perm_of_sorted (((p1.trans p2).trans p3).trans p4)
    (List.sorted_insertionSort _ _)
    (List.Sorted.orderedInsert v _ (List.sorted_insertionSort _ l))

theorem percentile_run_closed (pct window : Nat) (hw : 1 ≤ window) :
    ∀ vs : List Int,
      (Percentile.fresh pct window).run vs =
        Percentile.mk window (percentileCapacity pct window)
          ((sortInts (vs.take window)).take (percentileCapacity pct window))
          (min vs.length window)
          (decide (window ≤ vs.length))
          (if window ≤ vs.length then
            [((sortInts (vs.take window)).take (percentileCapacity pct window)).getLastD 0]
           else []) := by
  intro vs
  induction vs using List.reverseRecOn with
  | nil =>
    have h1 : ¬ window ≤ 0 := by omega
    simp [Percentile.run, Percentile.fresh, sortInts, h1, List.insertionSort]
  | append_singleton l v ih =>
    have hstep : (Percentile.fresh pct window).run (l ++ [v])
        = Percentile.record_data ((Percentile.fresh pct window).run l) v := by
      unfold Percentile.run
      rw [List.foldl_append]
      rfl
    have hlen1 : (l ++ [v]).length = l.length + 1 := by simp
    rw [hstep, ih]
    by_cases hfull : window ≤ l.length
    · have htake : (l ++ [v]).take window = l.take window :=
        List.take_append_of_le_length hfull
      have hle2 : window ≤ (l ++ [v]).length := by omega
      have hmin : min (l ++ [v]).length window = min l.length window := by omega
      have hle3 : window ≤ l.length + 1 := by omega
      simp [Percentile.record_data, hfull, hle2, htake, hmin, hle3]
    · have hlt : l.length < window := by omega
      have htl : l.take window = l := List.take_of_length_le (by omega)
      have hmin0 : min l.length window = l.length := by omega
      have htl2 : (l ++ [v]).take window = l ++ [v] := List.take_of_length_le (by omega)
      have hheld : (List.orderedInsert (fun a b => a ≤ b) v
            ((sortInts (l.take window)).take (percentileCapacity pct window))).take
            (percentileCapacity pct window)
          = (sortInts ((l ++ [v]).take window)).take (percentileCapacity pct window) := by
        rw [htl, take_orderedInsert_take, ← sortInts_append_singleton, htl2]
      by_cases hreach : l.length + 1 = window
      · have hle2 : window ≤ (l ++ [v]).length := by omega
        have hmin2 : min (l ++ [v]).length window = l.length + 1 := by omega
        simp [Percentile.record_data, hfull, hmin0, hreach, hheld, hle2, hmin2, hlt]
      · have hle2 : ¬ window ≤ (l ++ [v]).length := by omega
        have hmin2 : min (l ++ [v]).length window = l.length + 1 := by omega
        simp [Percentile.record_data, hfull, hmin0, hreach, hheld, hle2, hmin2, hlt]
        constructor <;> omega

theorem percentileCapacity_le (pct window : Nat) :
    percentileCapacity pct window ≤ window := by
  unfold percentileCapacity
  have hm : window * (100 - pct) ≤ window * 100 :=
    Nat.mul_le_mul_left window (by omega)
  have hw : window * 100 = 100 * window := Nat.mul_comm _ _
  generalize window * (100 - pct) = x at hm
  omega

theorem getLastD_take (L : List Int) (k : Nat) (h1 : 1 ≤ k) (h2 : k ≤ L.length) :
    (L.take k).getLastD 0 = L.getD (k - 1) 0 := by
  rw [List.getLastD_eq_getLast?, List.getLast?_eq_getElem?]
  rw [List.length_take, Nat.min_eq_left h2, List.getD_eq_getElem?_getD]
  congr 1
  exact List.getElem?_take_of_lt (by omega)

/-- C6: a Percentile collector with capacity `k = ceil(w * (100 - p) / 100)`
fires its callback exactly once, at the record_data call where the sample
count first reaches the window `w`, with the `k`-th smallest value among the
first `w` recorded samples, and every later record_data call on a fired
collector is a no-op (requires `w ≥ 1`, `k ≥ 1` and at least `w` recorded
samples for the firing call to exist). -/
theorem c6_percentile_order_statistic (pct window : Nat) (vs : List Int)
    (hw : 1 ≤ window)
    (hk : 1 ≤ percentileCapacity pct window)
    (hlen : window ≤ vs.length) :
    ((Percentile.fresh pct window).run vs).reported
      = [(sortInts (vs.take window)).getD (percentileCapacity pct window - 1) 0]
    ∧ (∀ (q : Percentile) (w : Int), q.fired = true → q.record_data w = q)
    ∧ ((Percentile.fresh pct window).run vs).fired = true := by
  have hclosed := percentile_run_closed pct window hw vs
  have hsortlen : (sortInts (vs.take window)).length = window := by
    unfold sortInts
    rw [List.length_insertionSort, List.length_take]
    omega
  refine ⟨?_, fun q w hq => ?_, ?_⟩
  · rw [hclosed]
    simp only [if_pos hlen]
    rw [getLastD_take _ _ hk (by rw [hsortlen]; exact percentileCapacity_le pct window)]
  · unfold Percentile.record_data
    rw [hq]
    simp
  · rw [hclosed]
    simp [hlen]

def vsW6 : List Int := (List.range 100).map (fun n => (n : Int) + 1)

theorem c6_witness :
    ((Percentile.fresh 90 100).run vsW6).reported = [10]
    ∧ ((Percentile.fresh 95 100).run vsW6).reported = [5]
    ∧ ((Percentile.fresh 99 100).run vsW6).reported = [1] := by
  have h90 := c6_percentile_order_statistic 90 100 vsW6 (by decide) (by decide) (by decide)
  have h95 := c6_percentile_order_statistic 95 100 vsW6 (by decide) (by decide) (by decide)
  have h99 := c6_percentile_order_statistic 99 100 vsW6 (by decide) (by decide) (by decide)
  refine ⟨?_, ?_, ?_⟩
  · rw [h90.1]; decide
  · rw [h95.1]; decide
  · rw [h99.1]; decide
